import Mathlib

/-!
Verification of the Rocky Mountain Power extraction integration.

The definitions below are a shallow embedding of the source files
`rocky_mountain_power.py` and `coordinator.py`:
  * timestamps are modelled as integers (seconds since the Unix epoch),
    built with the standard civil-calendar day count;
  * Python floats carrying consumption, cost and running sums are
    modelled as rationals;
  * fallible parsing (`ValueError` from `datetime.fromisoformat` or
    `locale.atof`) is modelled with `Option`;
  * the selenium pagination loop is modelled as a pure loop over a
    stream of page outcomes (new page / click intercepted / wait
    timeout / control missing).
-/

namespace RMP

/-! ## String primitives (over `List Char`) -/

/-- Python `str.replace`: rewrite every non-overlapping occurrence of
`pat` left to right.  The empty pattern is never used by the source, and
is treated as "no occurrence" here.  Each step consumes at least one
character, so a fuel equal to the input length is exact. -/
def replaceCharsAux (pat rep : List Char) : ℕ → List Char → List Char
  | 0, l => l
  | _, [] => []
  | fuel + 1, c :: cs =>
    if pat ≠ [] ∧ (c :: cs).take pat.length = pat then
      rep ++ replaceCharsAux pat rep fuel ((c :: cs).drop pat.length)
    else
      c :: replaceCharsAux pat rep fuel cs

def replaceChars (pat rep l : List Char) : List Char :=
  replaceCharsAux pat rep l.length l

/-- Python `str.replace` on `String`s. -/
def pyReplace (s pat rep : String) : String :=
  ⟨replaceChars pat.data rep.data s.data⟩

/-- Python `str.strip(chars)`: drop the given characters from both ends. -/
def stripChars (cset : List Char) (l : List Char) : List Char :=
  ((l.dropWhile (· ∈ cset)).reverse.dropWhile (· ∈ cset)).reverse

/-- Split a character list at every occurrence of `sep` (like
Python `str.split(sep)` for a single-character separator). -/
def splitOnChar (sep : Char) : List Char → List (List Char)
  | [] => [[]]
  | c :: cs =>
    match splitOnChar sep cs with
    | [] => [[]]
    | g :: gs => if c = sep then [] :: g :: gs else (c :: g) :: gs

/-- The for-loops of the three extractors build one read per payload
entry and abort on the first parse failure (an uncaught `ValueError`):
`Option`-valued traversal. -/
def mapOpt {α β : Type} (f : α → Option β) : List α → Option (List β)
  | [] => some []
  | a :: l => do
    let b ← f a
    let bs ← mapOpt f l
    pure (b :: bs)

/-- Value of a non-empty all-digit character list, `none` otherwise. -/
def charsToNat? (l : List Char) : Option ℕ :=
  if l ≠ [] ∧ l.all (·.isDigit) then
    some (l.foldl (fun n c => 10 * n + (c.toNat - 48)) 0)
  else none

/-! ## Numeric parsing

`locale.atof` with the `en_US` locale removes the thousands separator
`","` and then applies Python `float`.  `parseFloatChars` models
Python `float(str)` restricted to plain fixed-point decimals
(optional surrounding blanks, optional sign, digits with an optional
decimal point); every other input is a `ValueError`, i.e. `none`. -/

def parseFloatChars (l : List Char) : Option ℚ :=
  let l := ((l.dropWhile (· = ' ')).reverse.dropWhile (· = ' ')).reverse
  let sl : ℚ × List Char :=
    match l with
    | '-' :: rest => (-1, rest)
    | '+' :: rest => (1, rest)
    | _ => (1, l)
  match splitOnChar '.' sl.2 with
  | [ip] => (charsToNat? ip).map (fun n => sl.1 * n)
  | [ip, fp] =>
    if ip = [] ∧ fp = [] then none
    else if (ip = [] ∨ (charsToNat? ip).isSome) ∧ (fp = [] ∨ (charsToNat? fp).isSome) then
      some (sl.1 * (((charsToNat? ip).getD 0 : ℚ) + ((charsToNat? fp).getD 0 : ℚ) / (10 : ℚ) ^ fp.length))
    else none
  | _ => none

/-- `locale.atof` under the `en_US` locale set by the module. -/
def rmpAtof (s : String) : Option ℚ :=
  parseFloatChars (replaceChars [','] [] s.data)

/-! ## Civil calendar (for `datetime.fromisoformat`) -/

def isLeapYear (y : ℤ) : Bool :=
  y % 4 == 0 && (y % 100 != 0 || y % 400 == 0)

def daysInMonth (y : ℤ) (m : ℕ) : ℤ :=
  if m = 2 then (if isLeapYear y then 29 else 28)
  else if m = 4 ∨ m = 6 ∨ m = 9 ∨ m = 11 then 30
  else 31

/-- Days since 1970-01-01 of the civil date `y-m-d` (standard
era/year-of-era day count). -/
def daysFromCivil (y : ℤ) (m d : ℕ) : ℤ :=
  let yy : ℤ := if m ≤ 2 then y - 1 else y
  let era : ℤ := yy.fdiv 400
  let yoe : ℤ := yy - era * 400
  let mp : ℤ := ((m : ℤ) + 9) % 12
  let doy : ℤ := (153 * mp + 2).fdiv 5 + d - 1
  let doe : ℤ := yoe * 365 + yoe.fdiv 4 - yoe.fdiv 100 + doy
  era * 146097 + doe - 719468

/-- Seconds since the epoch of a civil date and time of day; the
reference timestamp used in theorem statements. -/
def mkDateTime (y : ℤ) (m d hh mi ss : ℕ) : ℤ :=
  daysFromCivil y m d * 86400 + hh * 3600 + mi * 60 + ss

/-- `datetime.fromisoformat("YYYY-MM-DD")`: days since the epoch of a
valid civil date (month and day-of-month range checked), else `none`. -/
def parseIsoDate (s : String) : Option ℤ :=
  match (splitOnChar '-' s.data).map charsToNat? with
  | [some y, some m, some d] =>
    if 1 ≤ m ∧ m ≤ 12 ∧ 1 ≤ d ∧ (d : ℤ) ≤ daysInMonth y m then
      some (daysFromCivil y m d)
    else none
  | _ => none

/-- Time of day `"HH:MM:SS"` in seconds; hour 24 is rejected, which is
why the source rewrites `"24"` before parsing. -/
def parseIsoTimeSec (l : List Char) : Option ℤ :=
  match (splitOnChar ':' l).map charsToNat? with
  | [some hh, some mm, some ss] =>
    if hh ≤ 23 ∧ mm ≤ 59 ∧ ss ≤ 59 then some (hh * 3600 + mm * 60 + ss)
    else none
  | _ => none

/-- `datetime.fromisoformat("YYYY-MM-DDTHH:MM:SS")` in epoch seconds. -/
def parseIsoDateTime (s : String) : Option ℤ :=
  match splitOnChar 'T' s.data with
  | [ds, ts] => do
    let d ← parseIsoDate ⟨ds⟩
    let t ← parseIsoTimeSec ts
    pure (d * 86400 + t)
  | _ => none

/-! ## Raw payload entries and normalized reads

One structure per payload shape consumed by `get_usage_by_month`,
`get_usage_by_day` and `get_usage_by_hour`.  A field read with
`d.get(key, default)` in the source is an `Option`; a field read with
`d[key]` is required.  Numeric JSON fields already arrive decoded, so
they are carried as rationals. -/

structure MonthEntry where
  usagePeriodEndDate : String
  elapsedDays : ℤ
  invoiceAmount : Option String
  kwhUsageQuantity : Option ℚ
  deriving DecidableEq, Repr

structure DayEntry where
  usagePeriodEndDate : String
  dollerAmount : Option String
  kwhUsageQuantity : Option ℚ
  deriving DecidableEq, Repr

structure HourEntry where
  readDate : String
  readTime : String
  usage : Option ℚ
  deriving DecidableEq, Repr

/-- One element of the `usage` list built by the three
`get_usage_by_*` extractors: `startTime`, `endTime`, `usage`,
`amount`. -/
structure RawRead where
  startTime : ℤ
  endTime : ℤ
  usage : ℚ
  amount : Option ℚ
  deriving DecidableEq, Repr

/-- `locale.atof(d.get(key, "").strip("$")) or None` with `ValueError`
caught and the amount left as `None`. -/
def parseCurrency (s : Option String) : Option ℚ :=
  match rmpAtof ⟨stripChars ['$'] (s.getD "").data⟩ with
  | none => none
  | some v => if v = 0 then none else some v

/-- Loop body of `get_usage_by_month` (lines 231-244): `end` from
`usagePeriodEndDate`, `start = end - timedelta(days=elapsedDays)`,
currency-parsed `invoiceAmount`. -/
def monthEntryToRead (e : MonthEntry) : Option RawRead :=
  (parseIsoDate e.usagePeriodEndDate).map fun dend =>
    { startTime := dend * 86400 - 86400 * e.elapsedDays
      endTime := dend * 86400
      usage := e.kwhUsageQuantity.getD 0
      amount := parseCurrency e.invoiceAmount }

/-- Loop body of `get_usage_by_day` (lines 270-283):
`start = end - timedelta(days=1)`, currency-parsed `dollerAmount`. -/
def dayEntryToRead (e : DayEntry) : Option RawRead :=
  (parseIsoDate e.usagePeriodEndDate).map fun dend =>
    { startTime := dend * 86400 - 86400
      endTime := dend * 86400
      usage := e.kwhUsageQuantity.getD 0
      amount := parseCurrency e.dollerAmount }

/-- Loop body of `get_usage_by_hour` (lines 316-324):
`end = fromisoformat(f"{readDate}T{readTime.replace('24', '00')}:00")`,
`start = end - timedelta(hours=1)`, amount always `None`. -/
def hourEntryToRead (e : HourEntry) : Option RawRead :=
  (parseIsoDateTime (e.readDate ++ "T" ++ pyReplace e.readTime "24" "00" ++ ":00")).map fun t =>
    { startTime := t - 3600
      endTime := t
      usage := e.usage.getD 0
      amount := none }

/-! ## Pagination (`get_usage_by_day` / `get_usage_by_hour` loops)

The selenium environment is modelled as a stream of outcomes of the
"click PREVIOUS, wait for a new capture" step:
  * `newPage p`: the click landed and a new capture `p` arrived;
  * `intercepted`: `ElementClickInterceptedException`, caught, loop breaks;
  * `timeout`: `TimeoutException` from the wait, caught, loop breaks;
  * `missingControl`: the PREVIOUS element lookup itself raised
    (`get_el` with `required=True`), which the loop does not catch.
An exhausted stream is treated like a timeout (no new capture ever
arrives). -/

inductive PageOutcome (α : Type) where
  | newPage (page : α)
  | intercepted
  | timeout
  | missingControl
  deriving DecidableEq, Repr

/-- The `while months > 0` / `while days > 0` loop shared by
`get_usage_by_day` and `get_usage_by_hour`: parse the current capture,
decrement the counter, and while more pages are wanted follow the next
step outcome; a caught interception or timeout returns what was parsed
so far, while a missing PREVIOUS control propagates (`none` models the
uncaught exception).  The loop body is written with one top-level
equation per case of the final counter test and step outcome. -/
def usageLoop {α : Type} (parsePage : α → Option (List RawRead)) :
    ℕ → α → List (PageOutcome α) → Option (List RawRead)
  | 0, _, _ => some []
  | 1, cur, _ => parsePage cur
  | _ + 2, cur, [] => parsePage cur
  | _ + 2, cur, .intercepted :: _ => parsePage cur
  | _ + 2, cur, .timeout :: _ => parsePage cur
  | _ + 2, cur, .missingControl :: _ => (parsePage cur).bind fun _ => none
  | n + 2, cur, .newPage p :: rest => do
    let recs ← parsePage cur
    let more ← usageLoop parsePage (n + 1) p rest
    pure (recs ++ more)

def dayPageToReads (page : List DayEntry) : Option (List RawRead) :=
  mapOpt dayEntryToRead page

def hourPageToReads (page : List HourEntry) : Option (List RawRead) :=
  mapOpt hourEntryToRead page

/-- `get_usage_by_month`: a single capture, no pagination. -/
def getUsageByMonth (entries : List MonthEntry) : Option (List RawRead) :=
  mapOpt monthEntryToRead entries

/-- `get_usage_by_day(months=n)` from the first captured page onward. -/
def getUsageByDay (first : List DayEntry) (steps : List (PageOutcome (List DayEntry)))
    (months : ℕ) : Option (List RawRead) :=
  usageLoop dayPageToReads months first steps

/-- `get_usage_by_hour(days=n)` from the first captured page onward. -/
def getUsageByHour (first : List HourEntry) (steps : List (PageOutcome (List HourEntry)))
    (days : ℕ) : Option (List RawRead) :=
  usageLoop hourPageToReads days first steps

/-! ## `get_cost_reads` -/

/-- `CostRead` dataclass. -/
structure CostRead where
  start_time : ℤ
  end_time : ℤ
  consumption : ℚ
  provided_cost : ℚ
  deriving DecidableEq, Repr

/-- Python `x or default` on an optional float: `None` and `0.0` are
both falsy. -/
def pyOrQ (x : Option ℚ) (dflt : ℚ) : ℚ :=
  match x with
  | none => dflt
  | some v => if v = 0 then dflt else v

/-- Construction of one `CostRead` in `get_cost_reads` (lines 514-521),
with `provided_cost=read["amount"] or 0`. -/
def toCostRead (r : RawRead) : CostRead :=
  { start_time := r.startTime
    end_time := r.endTime
    consumption := r.usage
    provided_cost := pyOrQ r.amount 0 }

/-- Stopping test of the trailing trim loop: both values exactly zero. -/
def zeroRead (r : CostRead) : Bool :=
  decide (r.provided_cost = 0 ∧ r.consumption = 0)

/-- The `while result: last = result.pop(); ...` loop of
`get_cost_reads` (lines 524-528) viewed from the popped end: the input
is the reversed read list, pops continue while both values are zero,
and the first non-zero read is pushed back. -/
def trimRevLoop : List CostRead → List CostRead
  | [] => []
  | last :: earlier =>
    if last.provided_cost ≠ 0 ∨ last.consumption ≠ 0 then last :: earlier
    else trimRevLoop earlier

/-- Trailing-zero removal of `get_cost_reads`. -/
def trimTrailing (l : List CostRead) : List CostRead :=
  (trimRevLoop l.reverse).reverse

/-- `get_cost_reads` applied to the reads coming back from
`_get_dated_data`: convert then trim. -/
def getCostReadsList (reads : List RawRead) : List CostRead :=
  trimTrailing (reads.map toCostRead)

def getCostReadsMonth (entries : List MonthEntry) : Option (List CostRead) :=
  (getUsageByMonth entries).map getCostReadsList

def getCostReadsDay (first : List DayEntry) (steps : List (PageOutcome (List DayEntry)))
    (period : ℕ) : Option (List CostRead) :=
  (getUsageByDay first steps period).map getCostReadsList

def getCostReadsHour (first : List HourEntry) (steps : List (PageOutcome (List HourEntry)))
    (period : ℕ) : Option (List CostRead) :=
  (getUsageByHour first steps period).map getCostReadsList

/-! ## Coordinator: `_insert_statistics` -/

/-- One `StatisticData` row. -/
structure StatPoint where
  start : ℤ
  state : ℚ
  sum : ℚ
  deriving DecidableEq, Repr

/-- The `for cost_read in cost_reads` loop of `_insert_statistics`
(lines 133-149): skip reads with `start <= last_stats_time` when a last
time exists, otherwise grow both running sums and emit one point per
series. -/
def mergeLoop (lastStatsTime : Option ℤ) (costSum consumptionSum : ℚ) :
    List CostRead → List StatPoint × List StatPoint
  | [] => ([], [])
  | r :: rs =>
    if (lastStatsTime.map (fun t => decide (r.start_time ≤ t))).getD false then
      mergeLoop lastStatsTime costSum consumptionSum rs
    else
      let cs := costSum + r.provided_cost
      let ks := consumptionSum + r.consumption
      let rest := mergeLoop lastStatsTime cs ks rs
      (⟨r.start_time, r.provided_cost, cs⟩ :: rest.1,
       ⟨r.start_time, r.consumption, ks⟩ :: rest.2)

inductive MergeOutcome where
  | skipped
  | emitted (costStats consumptionStats : List StatPoint)
  /-- `KeyError`/`IndexError` from `stats[id][0]` when the read-back
  window holds no row for a series, uncaught. -/
  | error
  deriving DecidableEq, Repr

/-- One persisted hourly statistics row as returned by
`statistics_during_period`: its `start` timestamp and running `sum`. -/
structure StoreRow where
  start : ℤ
  sum : ℚ
  deriving DecidableEq, Repr

/-- `statistics_during_period(hass, t, None, {id}, "hour", None, {"sum"})`
restricted to one series: the persisted rows (kept in their stored
ascending order) whose start is at or after `t`. -/
def statsAtOrAfter (rows : List StoreRow) (t : ℤ) : List StoreRow :=
  rows.filter fun row => decide (t ≤ row.start)

/-- Decision structure of `_insert_statistics` (lines 102-149): with no
prior point, merge the full-history reads with sums seeded at 0 and no
time bound; with a prior point, return early on an empty recent fetch,
otherwise read back, for each series, the FIRST persisted hourly row at
or after the first fetched record's start time — `stats[id][0]` of the
unbounded window starting at `cost_reads[0].start_time` — take the two
prior sums from those rows and the cutoff `last_stats_time` from the
cost row's start (generally EARLIER than the last persisted timestamp),
and merge the recent reads against them.  `costRows` and
`consumptionRows` are the persisted rows of the two series, ascending. -/
def insertStatisticsModel (lastStatExists : Bool)
    (allReads recentReads : List CostRead)
    (costRows consumptionRows : List StoreRow) : MergeOutcome :=
  if lastStatExists then
    match recentReads with
    | [] => .skipped
    | first :: rest =>
      match statsAtOrAfter costRows first.start_time,
          statsAtOrAfter consumptionRows first.start_time with
      | cRow :: _, kRow :: _ =>
        let r := mergeLoop (some cRow.start) cRow.sum kRow.sum (first :: rest)
        .emitted r.1 r.2
      | _, _ => .error
  else
    let r := mergeLoop none 0 0 allReads
    .emitted r.1 r.2

/-- The portal environment for one cycle: the monthly capture and, for
each paginated resolution, the first capture plus the step outcomes. -/
structure PortalData where
  monthEntries : List MonthEntry
  dayFirst : List DayEntry
  daySteps : List (PageOutcome (List DayEntry))
  hourFirst : List HourEntry
  hourSteps : List (PageOutcome (List HourEntry))

/-- `_async_get_all_cost_reads`: month reads for all time, then day
reads for the last 24 periods, then hour reads for the last 60 periods,
concatenated in that order. -/
def asyncGetAllCostReads (p : PortalData) : Option (List CostRead) := do
  let m ← getCostReadsMonth p.monthEntries
  let d ← getCostReadsDay p.dayFirst p.daySteps 24
  let h ← getCostReadsHour p.hourFirst p.hourSteps 60
  pure (m ++ d ++ h)

/-- `_async_get_recent_cost_reads`: one day period then one hour
period. -/
def asyncGetRecentCostReads (p : PortalData) : Option (List CostRead) := do
  let d ← getCostReadsDay p.dayFirst p.daySteps 1
  let h ← getCostReadsHour p.hourFirst p.hourSteps 1
  pure (d ++ h)

/-! ## Accounts, login and statistic ids -/

structure Customer where
  uuid : String
  deriving DecidableEq, Repr

structure Account where
  customer : Customer
  uuid : String
  utility_account_id : String
  deriving DecidableEq, Repr

/-- `get_account` (lines 458-465): the utility account id is the
account number with every space replaced by an underscore. -/
def getAccountModel (customerId accountNumber : String) : Account :=
  { customer := ⟨customerId⟩
    uuid := accountNumber
    utility_account_id := pyReplace accountNumber " " "_" }

/-- The `Account` embedded in each `Forecast` by `get_forecast`
(lines 478-482): the utility account id is the raw account number. -/
def forecastAccount (customerId accountNumber : String) : Account :=
  { customer := ⟨customerId⟩
    uuid := accountNumber
    utility_account_id := accountNumber }

/-- `f"{DOMAIN}:{id_prefix}_energy_cost"` with
`id_prefix = "_".join(("elec", account.utility_account_id))`. -/
def costStatisticId (domain uid : String) : String :=
  domain ++ ":" ++ "elec" ++ "_" ++ uid ++ "_energy_cost"

def consumptionStatisticId (domain uid : String) : String :=
  domain ++ ":" ++ "elec" ++ "_" ++ uid ++ "_energy_consumption"

structure MeBody where
  id : String
  deriving DecidableEq, Repr

structure WebAccount where
  accountNumber : String
  deriving DecidableEq, Repr

structure AccountListBody where
  webAccount : List WebAccount
  deriving DecidableEq, Repr

inductive LoginOutcome where
  /-- Login completed; the user id and first account are cached. -/
  | ok (userId : String) (account : WebAccount)
  /-- `KeyError` from `xhrs[url]` (line 165 or 167), uncaught. -/
  | keyErr (url : String)
  /-- `IndexError` from `webAccount[0]` on an empty list, uncaught. -/
  | indexErr
  | cannotConnect
  | invalidAuth
  deriving DecidableEq, Repr

def meUrl : String := "https://csapps.rockymountainpower.net/api/user/me"

def accountListUrl : String :=
  "https://csapps.rockymountainpower.net/api/self-service/getAccountList"

/-- `login` (lines 128-169) after the browser reached the login page:
a failed wait for the "Sign in" title raises `CannotConnect`; a failed
wait for the "My account" title raises `InvalidAuth`; then the capture
buffer is consulted — `meResp` and `acctResp` are its entries at
`meUrl` and `accountListUrl`, decoded, `none` when the URL was never
captured.  A missing entry makes the subscript raise `KeyError`. -/
def loginModel (signInTitleOk myAccountTitleOk : Bool)
    (meResp : Option MeBody) (acctResp : Option AccountListBody) : LoginOutcome :=
  if ¬ signInTitleOk then .cannotConnect
  else if ¬ myAccountTitleOk then .invalidAuth
  else
    match meResp with
    | none => .keyErr meUrl
    | some me =>
      match acctResp with
      | none => .keyErr accountListUrl
      | some accts =>
        match accts.webAccount with
        | [] => .indexErr
        | a :: _ => .ok me.id a

/-! ## Specification-side definitions

These follow the wording of the specification and are compared with
the code-derived definitions above. -/

/-- Running sums of a value list on top of a seed, as described for the
merge: the `k`-th output is the seed plus the sum of the first `k + 1`
values. -/
def runningSums (seed : ℚ) : List ℚ → List ℚ
  | [] => []
  | x :: xs => (seed + x) :: runningSums (seed + x) xs

/-- Spec wording of the trailing trim: drop the maximal trailing run of
records whose consumption and cost are both exactly zero. -/
def trimTrailingSpec (l : List CostRead) : List CostRead :=
  (l.reverse.dropWhile zeroRead).reverse

section Proofs

attribute [local semireducible] Rat.add Rat.mul Rat.inv

/-! ## Trailing-zero trimming -/

theorem trimRevLoop_eq_dropWhile (l : List CostRead) :
    trimRevLoop l = l.dropWhile zeroRead := by
  induction l with
  | nil => rfl
  | cons a l ih =>
    by_cases h1 : a.provided_cost = 0
    · by_cases h2 : a.consumption = 0
      · simp [trimRevLoop, List.dropWhile_cons, zeroRead, h1, h2, ih]
      · simp [trimRevLoop, List.dropWhile_cons, zeroRead, h1, h2]
    · simp [trimRevLoop, List.dropWhile_cons, zeroRead, h1]

theorem trimTrailing_eq_spec (l : List CostRead) :
    trimTrailing l = trimTrailingSpec l := by
  unfold trimTrailing trimTrailingSpec
  rw [trimRevLoop_eq_dropWhile]

theorem trimTrailing_append (l : List CostRead) :
    trimTrailing l ++ (l.reverse.takeWhile zeroRead).reverse = l := by
  rw [trimTrailing, trimRevLoop_eq_dropWhile, ← List.reverse_append,
    List.takeWhile_append_dropWhile, List.reverse_reverse]

theorem trimTrailing_getLast? (l : List CostRead) :
    ∀ x ∈ (trimTrailing l).getLast?, zeroRead x = false := by
  intro x hx
  rw [trimTrailing, trimRevLoop_eq_dropWhile, List.getLast?_reverse] at hx
  cases hd : l.reverse.dropWhile zeroRead with
  | nil => rw [hd] at hx; simp at hx
  | cons b m =>
    rw [hd] at hx
    simp only [List.head?_cons, Option.mem_def, Option.some.injEq] at hx
    have hb := List.head_dropWhile_not zeroRead l.reverse
    rw [hd] at hb
    simpa [← hx] using hb (by simp)

theorem mem_trimTrailing (l : List CostRead) (r : CostRead) (h : r ∈ trimTrailing l) :
    r ∈ l := by
  have ha := trimTrailing_append l
  rw [← ha]
  exact List.mem_append_left _ h

/-- C2: `get_cost_reads` drops exactly the maximal trailing (chronologically
last) run of records whose consumption and cost are both exactly zero,
keeping everything up to and including the first record from the end with a
non-zero value; costs `[5, 0, 0]` (oldest to newest, zero consumption)
yield `[5]`, and an all-zero list yields `[]`. -/
theorem getCostReads_trims_trailing_zeros :
    (∀ reads : List RawRead,
      getCostReadsList reads = trimTrailingSpec (reads.map toCostRead) ∧
      (∃ dropped, reads.map toCostRead = getCostReadsList reads ++ dropped ∧
        ∀ r ∈ dropped, r.provided_cost = 0 ∧ r.consumption = 0) ∧
      (∀ x ∈ (getCostReadsList reads).getLast?,
        x.provided_cost ≠ 0 ∨ x.consumption ≠ 0)) ∧
    getCostReadsList
        [⟨0, 86400, 0, some 5⟩, ⟨86400, 172800, 0, none⟩, ⟨172800, 259200, 0, none⟩]
      = [⟨0, 86400, 0, 5⟩] ∧
    getCostReadsList
        [⟨0, 86400, 0, none⟩, ⟨86400, 172800, 0, none⟩, ⟨172800, 259200, 0, none⟩]
      = [] := by
  refine ⟨fun reads => ⟨trimTrailing_eq_spec _,
    ⟨((reads.map toCostRead).reverse.takeWhile zeroRead).reverse,
      (trimTrailing_append _).symm, ?_⟩, ?_⟩, by decide, by decide⟩
  · intro r hr
    have hz := List.mem_takeWhile_imp (List.mem_reverse.mp hr)
    simpa [zeroRead] using hz
  · intro x hx
    have hz := trimTrailing_getLast? _ x hx
    simp only [zeroRead, decide_eq_false_iff_not, not_and_or] at hz
    exact hz

theorem getCostReads_trims_trailing_zeros_witness :
    ((⟨0, 86400, 0, 5⟩ : CostRead).provided_cost ≠ 0 ∨
      (⟨0, 86400, 0, 5⟩ : CostRead).consumption ≠ 0) ∧
    (∃ dropped,
      ([⟨0, 86400, (0 : ℚ), some 5⟩, ⟨86400, 172800, 0, none⟩] : List RawRead).map toCostRead
        = getCostReadsList [⟨0, 86400, (0 : ℚ), some 5⟩, ⟨86400, 172800, 0, none⟩] ++ dropped ∧
      ∀ r ∈ dropped, r.provided_cost = 0 ∧ r.consumption = 0) :=
  ⟨(getCostReads_trims_trailing_zeros.1
      [⟨0, 86400, (0 : ℚ), some 5⟩, ⟨86400, 172800, 0, none⟩]).2.2
      ⟨0, 86400, 0, 5⟩ (by decide),
   (getCostReads_trims_trailing_zeros.1
      [⟨0, 86400, (0 : ℚ), some 5⟩, ⟨86400, 172800, 0, none⟩]).2.1⟩

/-! ## Hourly end-of-day parsing -/

/-- C3: for an hourly raw entry with readDate 2023-11-22 and readTime
"24:00" the code rewrites the time to "00:00" but keeps the read date, so
the produced record ends at 2023-11-22T00:00:00 — midnight of the SAME
day — and not at 2023-11-23T00:00:00 as the specification states; the
start is one hour earlier still. -/
theorem hourly_end_of_day_bug :
    hourEntryToRead ⟨"2023-11-22", "24:00", some (841 / 500)⟩
      = some ⟨mkDateTime 2023 11 22 0 0 0 - 3600, mkDateTime 2023 11 22 0 0 0,
          841 / 500, none⟩ ∧
    pyReplace "24:00" "24" "00" = "00:00" ∧
    mkDateTime 2023 11 22 0 0 0 ≠ mkDateTime 2023 11 23 0 0 0 := by
  refine ⟨by decide, by decide, by decide⟩

/-! ## `end > start` for normalized records -/

/-- C4 counterexample: a monthly payload entry with `elapsedDays = 0` is
normalized to a record with `end = start`, so not every raw payload
yields only records with `end > start`. -/
theorem normalize_end_gt_start_counterexample :
    ∃ r, monthEntryToRead ⟨"2021-10-12", 0, none, none⟩ = some r ∧
      ¬ (r.startTime < r.endTime) :=
  ⟨⟨1633996800, 1633996800, 0, none⟩, by decide, by decide⟩

/-- C4 amended: daily records always satisfy `end = start + 1 day` and
hourly records `end = start + 1 hour`, hence `end > start`; a monthly
record satisfies `start = end - elapsedDays days`, and `end > start` holds
exactly when the payload's `elapsedDays` is at least 1. -/
theorem normalize_end_gt_start :
    (∀ e r, dayEntryToRead e = some r →
      r.startTime = r.endTime - 86400 ∧ r.startTime < r.endTime) ∧
    (∀ e r, hourEntryToRead e = some r →
      r.startTime = r.endTime - 3600 ∧ r.startTime < r.endTime) ∧
    (∀ e r, monthEntryToRead e = some r →
      r.startTime = r.endTime - 86400 * e.elapsedDays ∧
        (r.startTime < r.endTime ↔ 1 ≤ e.elapsedDays)) := by
  refine ⟨fun e r h => ?_, fun e r h => ?_, fun e r h => ?_⟩
  · rcases Option.map_eq_some'.mp h with ⟨d, _, rfl⟩
    refine ⟨rfl, by dsimp only; omega⟩
  · rcases Option.map_eq_some'.mp h with ⟨t, _, rfl⟩
    refine ⟨rfl, by dsimp only; omega⟩
  · rcases Option.map_eq_some'.mp h with ⟨d, _, rfl⟩
    refine ⟨rfl, by dsimp only; constructor <;> intro <;> omega⟩

theorem normalize_end_gt_start_witness :
    ∃ r, dayEntryToRead ⟨"2023-10-24", none, some 1⟩ = some r ∧
      r.startTime = r.endTime - 86400 ∧ r.startTime < r.endTime :=
  ⟨⟨1698019200, 1698105600, 1, none⟩, by decide,
    (normalize_end_gt_start.1 ⟨"2023-10-24", none, some 1⟩
      ⟨1698019200, 1698105600, 1, none⟩ (by decide))⟩

/-! ## Merge loop -/

theorem mergeLoop_none_spec (c k : ℚ) (l : List CostRead) :
    (mergeLoop none c k l).1.map StatPoint.start = l.map CostRead.start_time ∧
    (mergeLoop none c k l).2.map StatPoint.start = l.map CostRead.start_time ∧
    (mergeLoop none c k l).1.map StatPoint.state = l.map CostRead.provided_cost ∧
    (mergeLoop none c k l).2.map StatPoint.state = l.map CostRead.consumption ∧
    (mergeLoop none c k l).1.map StatPoint.sum
      = runningSums c (l.map CostRead.provided_cost) ∧
    (mergeLoop none c k l).2.map StatPoint.sum
      = runningSums k (l.map CostRead.consumption) := by
  induction l generalizing c k with
  | nil => simp [mergeLoop, runningSums]
  | cons r rs ih =>
    simpa [mergeLoop, runningSums] using ih (c + r.provided_cost) (k + r.consumption)

theorem mergeLoop_some_eq_filter (T : ℤ) (c k : ℚ) (l : List CostRead) :
    mergeLoop (some T) c k l
      = mergeLoop none c k (l.filter fun r => decide (T < r.start_time)) := by
  induction l generalizing c k with
  | nil => rfl
  | cons r rs ih =>
    by_cases h : r.start_time ≤ T
    · have hn : ¬ (T < r.start_time) := not_lt.mpr h
      simp [mergeLoop, h, hn, ih]
    · have hl : T < r.start_time := lt_of_not_le h
      simp [mergeLoop, h, hl, ih]

theorem mergeLoop_all_le (T : ℤ) (c k : ℚ) (l : List CostRead)
    (h : ∀ r ∈ l, r.start_time ≤ T) : mergeLoop (some T) c k l = ([], []) := by
  rw [mergeLoop_some_eq_filter]
  have he : (l.filter fun r => decide (T < r.start_time)) = [] := by
    rw [List.filter_eq_nil_iff]
    intro r hr
    simpa using not_lt.mpr (h r hr)
  rw [he]
  rfl

theorem runningSums_chain_le (a : ℚ) (l : List ℚ) (h : ∀ x ∈ l, 0 ≤ x) :
    List.Chain' (· ≤ ·) (a :: runningSums a l) := by
  induction l generalizing a with
  | nil => simp [runningSums]
  | cons x xs ih =>
    rw [runningSums, List.chain'_cons]
    refine ⟨by have := h x (by simp); linarith, ?_⟩
    exact ih (a + x) fun y hy => h y (by simp [hy])

/-- C1 counterexample: two input records sharing the same start time
strictly after the last persisted timestamp each emit a delta point, so
the same timestamp is emitted twice within one merge. -/
theorem incremental_merge_counterexample :
    (mergeLoop (some 0) 0 0 [⟨5, 6, 1, 1⟩, ⟨5, 6, 2, 2⟩]).2.map StatPoint.start
      = [5, 5] ∧
    ¬ List.Pairwise (· ≠ ·)
      ((mergeLoop (some 0) 0 0 [⟨5, 6, 1, 1⟩, ⟨5, 6, 2, 2⟩]).2.map StatPoint.start) := by
  refine ⟨by decide, by decide⟩

/-- C1 amended: in an incremental merge with last persisted timestamp `T`,
every record whose start is at or before `T` is excluded and leaves the
running sums unchanged, and every record whose start is strictly after `T`
emits one delta point per series whose sum is the running sum so far plus
that record's consumption (respectively cost) — equivalently, the merge
equals the unbounded merge of the subsequence of records past `T`, with
sums the running sums over that subsequence; every emitted timestamp is
strictly after `T`, and when the input starts are strictly increasing
(distinct chronological order) no timestamp is emitted twice.  (As stated,
the claim fails for inputs that repeat a start time after `T`.) -/
theorem incremental_merge :
    ∀ (T : ℤ) (S K : ℚ) (rs : List CostRead),
      mergeLoop (some T) S K rs
        = mergeLoop none S K (rs.filter fun r => decide (T < r.start_time)) ∧
      (mergeLoop (some T) S K rs).2.map StatPoint.start
        = (rs.filter fun r => decide (T < r.start_time)).map CostRead.start_time ∧
      (mergeLoop (some T) S K rs).2.map StatPoint.sum
        = runningSums K
            ((rs.filter fun r => decide (T < r.start_time)).map CostRead.consumption) ∧
      (mergeLoop (some T) S K rs).1.map StatPoint.sum
        = runningSums S
            ((rs.filter fun r => decide (T < r.start_time)).map CostRead.provided_cost) ∧
      (∀ p ∈ (mergeLoop (some T) S K rs).2, T < p.start) ∧
      (List.Chain' (· < ·) (rs.map CostRead.start_time) →
        List.Pairwise (· ≠ ·)
          ((mergeLoop (some T) S K rs).2.map StatPoint.start)) := by
  intro T S K rs
  have hf := mergeLoop_some_eq_filter T S K rs
  have hs := mergeLoop_none_spec S K (rs.filter fun r => decide (T < r.start_time))
  have hstart : (mergeLoop (some T) S K rs).2.map StatPoint.start
      = (rs.filter fun r => decide (T < r.start_time)).map CostRead.start_time := by
    rw [hf]; exact hs.2.1
  refine ⟨hf, hstart, by rw [hf]; exact hs.2.2.2.2.2, by rw [hf]; exact hs.2.2.2.2.1,
    ?_, ?_⟩
  · intro p hp
    have hmem : p.start ∈ (mergeLoop (some T) S K rs).2.map StatPoint.start :=
      List.mem_map_of_mem StatPoint.start hp
    rw [hstart] at hmem
    rcases List.mem_map.mp hmem with ⟨r, hr, hre⟩
    have := (List.mem_filter.mp hr).2
    simp only [decide_eq_true_eq] at this
    omega
  · intro hchain
    rw [hstart]
    have hsub : List.Sublist
        ((rs.filter fun r => decide (T < r.start_time)).map CostRead.start_time)
        (rs.map CostRead.start_time) :=
      (List.filter_sublist rs).map CostRead.start_time
    have hc : List.Chain' (· < ·)
        ((rs.filter fun r => decide (T < r.start_time)).map CostRead.start_time) :=
      hchain.sublist hsub
    exact ((List.chain'_iff_pairwise).mp hc).imp ne_of_lt

theorem incremental_merge_witness :
    (10 : ℤ) < (⟨11, (1 : ℚ), (201 : ℚ)⟩ : StatPoint).start ∧
    List.Pairwise (· ≠ ·)
      ((mergeLoop (some 10) 100 200
        [⟨10, 11, 5, 5⟩, ⟨11, 12, 1, 1⟩, ⟨12, 13, 2, 2⟩]).2.map StatPoint.start) :=
  ⟨(incremental_merge 10 100 200
      [⟨10, 11, 5, 5⟩, ⟨11, 12, 1, 1⟩, ⟨12, 13, 2, 2⟩]).2.2.2.2.1
      ⟨11, 1, 201⟩ (by decide),
   (incremental_merge 10 100 200
      [⟨10, 11, 5, 5⟩, ⟨11, 12, 1, 1⟩, ⟨12, 13, 2, 2⟩]).2.2.2.2.2
      (by simp [List.chain'_cons])⟩

/-! ## No-op merge cycles -/

/-- C7 counterexample: the incremental cutoff is the start of the FIRST
persisted row at or after the first fetched record's start, not the last
persisted timestamp.  With persisted hourly rows at 0 and 3600 for both
series (last persisted timestamp 3600) and a re-fetch of records at 0 and
3600 — entirely at or before 3600 — the read-back window starting at 0
makes the cutoff 0, so the record at 3600 is re-emitted on both series:
the cycle is not a no-op. -/
theorem merge_noop_counterexample :
    insertStatisticsModel true []
        [⟨0, 3600, 10, 1⟩, ⟨3600, 7200, 5, 1⟩]
        [⟨0, 1⟩, ⟨3600, 2⟩] [⟨0, 10⟩, ⟨3600, 15⟩]
      = .emitted [⟨3600, 1, 2⟩] [⟨3600, 5, 15⟩] ∧
    ([⟨0, 1⟩, ⟨3600, 2⟩] : List StoreRow).getLast? = some ⟨3600, 2⟩ ∧
    (∀ r ∈ [(⟨0, 3600, 10, 1⟩ : CostRead), ⟨3600, 7200, 5, 1⟩],
      r.start_time ≤ 3600) ∧
    ([⟨3600, 1, 2⟩] : List StatPoint) ≠ [] := by
  refine ⟨by decide, by decide, by decide, by decide⟩

/-- C7 amended: with a prior persisted point, an empty recent fetch makes
the merge return before emitting anything; a non-empty fetch merges
against the cutoff `t₀` read back from the store — the start of the first
persisted cost-series row at or after the first fetched record's start
time, which is generally earlier than the last persisted timestamp — and
when every fetched record starts at or before `t₀` the merge emits zero
delta points for both series and completes without error.  (As stated,
with the cutoff taken to be the last persisted timestamp, the claim fails:
records between the read-back row and the last persisted point are
re-emitted, not skipped.) -/
theorem merge_noop :
    (∀ (allReads : List CostRead) (costRows consumptionRows : List StoreRow),
      insertStatisticsModel true allReads [] costRows consumptionRows = .skipped) ∧
    (∀ (T : ℤ) (c k : ℚ) (l : List CostRead),
      (∀ r ∈ l, r.start_time ≤ T) → mergeLoop (some T) c k l = ([], [])) ∧
    (∀ (allReads : List CostRead) (first : CostRead) (rest : List CostRead)
        (costRows consumptionRows : List StoreRow)
        (cRow kRow : StoreRow) (ctail ktail : List StoreRow),
      statsAtOrAfter costRows first.start_time = cRow :: ctail →
      statsAtOrAfter consumptionRows first.start_time = kRow :: ktail →
      (∀ r ∈ first :: rest, r.start_time ≤ cRow.start) →
      insertStatisticsModel true allReads (first :: rest) costRows consumptionRows
        = .emitted [] []) := by
  refine ⟨fun allReads costRows consumptionRows => rfl, mergeLoop_all_le, ?_⟩
  intro allReads first rest costRows consumptionRows cRow kRow ctail ktail hc hk hle
  have he := mergeLoop_all_le cRow.start cRow.sum kRow.sum (first :: rest) hle
  simp [insertStatisticsModel, hc, hk, he]

theorem merge_noop_witness :
    insertStatisticsModel true [] [⟨50, 60, 2, 2⟩, ⟨100, 110, 3, 3⟩]
      [⟨100, 1⟩] [⟨100, 10⟩] = .emitted [] [] :=
  merge_noop.2.2 [] ⟨50, 60, 2, 2⟩ [⟨100, 110, 3, 3⟩] [⟨100, 1⟩] [⟨100, 10⟩]
    ⟨100, 1⟩ ⟨100, 10⟩ [] [] (by decide) (by decide) (by decide)

/-! ## First-run merge -/

/-- C6: on a first run (no prior point for the consumption series) the
model fetches month-resolution history, then day-resolution for the last
24 periods, then hour-resolution for the last 60 periods, concatenated in
that order; the merge seeds both running sums at 0, applies no lower time
bound, and emits one delta point per input record whose sums are the
running sums of the inputs; with nonnegative record values the emitted
sums are monotonically non-decreasing, and consumptions 10, 5, 0 in order
yield sums 10, 15, 15. -/
theorem first_run_merge :
    (∀ (p : PortalData) (m d h : List CostRead),
      getCostReadsMonth p.monthEntries = some m →
      getCostReadsDay p.dayFirst p.daySteps 24 = some d →
      getCostReadsHour p.hourFirst p.hourSteps 60 = some h →
      asyncGetAllCostReads p = some (m ++ d ++ h)) ∧
    (∀ (reads recentReads : List CostRead) (costRows consumptionRows : List StoreRow),
      insertStatisticsModel false reads recentReads costRows consumptionRows
        = .emitted (mergeLoop none 0 0 reads).1 (mergeLoop none 0 0 reads).2) ∧
    (∀ reads : List CostRead,
      (mergeLoop none 0 0 reads).1.length = reads.length ∧
      (mergeLoop none 0 0 reads).2.length = reads.length ∧
      (mergeLoop none 0 0 reads).1.map StatPoint.sum
        = runningSums 0 (reads.map CostRead.provided_cost) ∧
      (mergeLoop none 0 0 reads).2.map StatPoint.sum
        = runningSums 0 (reads.map CostRead.consumption)) ∧
    (∀ reads : List CostRead, (∀ r ∈ reads, 0 ≤ r.consumption) →
      List.Chain' (· ≤ ·) ((mergeLoop none 0 0 reads).2.map StatPoint.sum)) ∧
    (mergeLoop none 0 0 [⟨0, 3600, 10, 0⟩, ⟨3600, 7200, 5, 0⟩, ⟨7200, 10800, 0, 0⟩]).2.map
        StatPoint.sum = [10, 15, 15] := by
  refine ⟨?_, fun reads recentReads costRows consumptionRows => rfl, ?_, ?_, by decide⟩
  · intro p m d h hm hd hh
    simp [asyncGetAllCostReads, hm, hd, hh]
  · intro reads
    have hs := mergeLoop_none_spec 0 0 reads
    refine ⟨?_, ?_, hs.2.2.2.2.1, hs.2.2.2.2.2⟩
    · have := congrArg List.length hs.1
      simpa using this
    · have := congrArg List.length hs.2.1
      simpa using this
  · intro reads h
    have hs := (mergeLoop_none_spec 0 0 reads).2.2.2.2.2
    rw [hs]
    refine (runningSums_chain_le 0 (reads.map CostRead.consumption) ?_).tail
    intro x hx
    rcases List.mem_map.mp hx with ⟨r, hr, rfl⟩
    exact h r hr

theorem first_run_merge_witness :
    List.Chain' (· ≤ ·)
      ((mergeLoop none 0 0
        [⟨0, 3600, 10, 0⟩, ⟨3600, 7200, 5, 0⟩, ⟨7200, 10800, 0, 0⟩]).2.map
          StatPoint.sum) :=
  first_run_merge.2.2.2.1
    [⟨0, 3600, 10, 0⟩, ⟨3600, 7200, 5, 0⟩, ⟨7200, 10800, 0, 0⟩] (by decide)

/-! ## Pagination early stop -/

theorem usageLoop_early_stop {α : Type} (parse : α → Option (List RawRead)) :
    ∀ (pages : List α) (n : ℕ) (first : α) (stop : PageOutcome α)
      (rest : List (PageOutcome α)) (rss : List (List RawRead)),
      (stop = .intercepted ∨ stop = .timeout) →
      pages.length + 2 ≤ n →
      mapOpt parse (first :: pages) = some rss →
      usageLoop parse n first (pages.map PageOutcome.newPage ++ stop :: rest)
        = some rss.flatten := by
  intro pages
  induction pages with
  | nil =>
    intro n first stop rest rss hstop hn hm
    obtain ⟨k, rfl⟩ : ∃ k, n = k + 2 := ⟨n - 2, by omega⟩
    cases hp : parse first with
    | none => simp [mapOpt, hp] at hm
    | some r =>
      simp [mapOpt, hp] at hm
      subst hm
      rcases hstop with rfl | rfl <;> simp [usageLoop, hp]
  | cons p ps ih =>
    intro n first stop rest rss hstop hn hm
    obtain ⟨k, rfl⟩ : ∃ k, n = k + 2 := ⟨n - 2, by omega⟩
    rw [mapOpt] at hm
    cases hp : parse first with
    | none => rw [hp] at hm; simp at hm
    | some r =>
      rw [hp] at hm
      cases hrest : mapOpt parse (p :: ps) with
      | none => rw [hrest] at hm; simp at hm
      | some rss' =>
        rw [hrest] at hm
        simp at hm
        subst hm
        have hrec := ih (k + 1) p stop rest rss' hstop (by simp at hn ⊢; omega) hrest
        simp [usageLoop, hp, hrec]

/-- C8: for any remaining page budget, the day/hour pagination loop stops
early without raising when the PREVIOUS click is intercepted or no new
capture arrives within the wait bound, returning exactly the records
collected from the pages seen so far; in particular with a budget of 3
periods and the previous control unclickable after the first page,
exactly that one period's records are returned. -/
theorem pagination_early_stop :
    (∀ (n : ℕ) (first : List DayEntry) (pages : List (List DayEntry))
        (stop : PageOutcome (List DayEntry)) (rest) (rss : List (List RawRead)),
      (stop = .intercepted ∨ stop = .timeout) →
      pages.length + 2 ≤ n →
      mapOpt dayPageToReads (first :: pages) = some rss →
      getUsageByDay first (pages.map PageOutcome.newPage ++ stop :: rest) n
        = some rss.flatten) ∧
    (∀ (n : ℕ) (first : List HourEntry) (pages : List (List HourEntry))
        (stop : PageOutcome (List HourEntry)) (rest) (rss : List (List RawRead)),
      (stop = .intercepted ∨ stop = .timeout) →
      pages.length + 2 ≤ n →
      mapOpt hourPageToReads (first :: pages) = some rss →
      getUsageByHour first (pages.map PageOutcome.newPage ++ stop :: rest) n
        = some rss.flatten) ∧
    (∀ (first : List DayEntry) (rest) (reads : List RawRead),
      dayPageToReads first = some reads →
      getUsageByDay first (PageOutcome.intercepted :: rest) 3 = some reads) := by
  refine ⟨fun n first pages stop rest rss =>
      usageLoop_early_stop dayPageToReads pages n first stop rest rss,
    fun n first pages stop rest rss =>
      usageLoop_early_stop hourPageToReads pages n first stop rest rss, ?_⟩
  intro first rest reads hp
  have h := usageLoop_early_stop dayPageToReads [] 3 first .intercepted rest [reads]
    (Or.inl rfl) (by simp) (by simp [mapOpt, hp])
  simpa using h

theorem pagination_early_stop_witness :
    getUsageByDay [⟨"2023-10-24", none, some 1⟩] [PageOutcome.intercepted] 3
      = some [⟨1698019200, 1698105600, 1, none⟩] :=
  pagination_early_stop.2.2 [⟨"2023-10-24", none, some 1⟩] []
    [⟨1698019200, 1698105600, 1, none⟩] (by decide)

/-! ## Login capture handling -/

/-- C5 counterexample: after a successful navigation, a capture buffer
missing the identity endpoint makes the login raise the uncaught
subscript `KeyError`, not `CannotConnect` as claimed. -/
theorem login_missing_capture_counterexample :
    loginModel true true none (some ⟨[⟨"12 34"⟩]⟩) = .keyErr meUrl ∧
    LoginOutcome.keyErr meUrl ≠ .cannotConnect :=
  ⟨rfl, by decide⟩

/-- C5 amended: after a login whose navigation succeeds, a missing
identity-endpoint response raises `KeyError` on the identity URL, and a
missing account-list response raises `KeyError` on the account-list URL —
in both cases an uncaught `KeyError`, never `CannotConnect` or
`InvalidAuth`; with both responses present (and a non-empty account
list) the login caches the authenticated user id and the first account. -/
theorem login_missing_capture :
    (∀ acctResp, loginModel true true none acctResp = .keyErr meUrl) ∧
    (∀ me, loginModel true true (some me) none = .keyErr accountListUrl) ∧
    (∀ me a rest, loginModel true true (some me) (some ⟨a :: rest⟩) = .ok me.id a) ∧
    (∀ meResp acctResp,
      loginModel true true meResp acctResp ≠ .cannotConnect ∧
      loginModel true true meResp acctResp ≠ .invalidAuth) := by
  refine ⟨fun acctResp => rfl, fun me => rfl, fun me a rest => rfl, ?_⟩
  intro meResp acctResp
  cases meResp with
  | none => exact ⟨fun h => by simp [loginModel] at h, fun h => by simp [loginModel] at h⟩
  | some me =>
    cases acctResp with
    | none => exact ⟨fun h => by simp [loginModel] at h, fun h => by simp [loginModel] at h⟩
    | some accts =>
      cases haccts : accts.webAccount with
      | nil =>
        exact ⟨fun h => by simp [loginModel, haccts] at h,
          fun h => by simp [loginModel, haccts] at h⟩
      | cons a l =>
        exact ⟨fun h => by simp [loginModel, haccts] at h,
          fun h => by simp [loginModel, haccts] at h⟩

theorem login_missing_capture_witness :
    loginModel true true (some ⟨"u1"⟩) (some ⟨[⟨"12 34"⟩]⟩) = .ok "u1" ⟨"12 34"⟩ ∧
    loginModel true true none none ≠ .cannotConnect :=
  ⟨login_missing_capture.2.2.1 ⟨"u1"⟩ ⟨"12 34"⟩ [],
   (login_missing_capture.2.2.2 none none).1⟩

/-! ## Utility account id -/

theorem replaceCharsAux_space_cons (fuel : ℕ) (c : Char) (cs : List Char) :
    replaceCharsAux [' '] ['_'] (fuel + 1) (c :: cs)
      = (if c = ' ' then '_' else c) :: replaceCharsAux [' '] ['_'] fuel cs := by
  by_cases h : c = ' ' <;> simp [replaceCharsAux, h]

theorem space_notMem_pyReplace (s : String) :
    ' ' ∉ (pyReplace s " " "_").data := by
  show ' ' ∉ replaceCharsAux [' '] ['_'] s.data.length s.data
  generalize s.data = l
  induction l with
  | nil => simp [replaceCharsAux]
  | cons c cs ih =>
    rw [List.length_cons, replaceCharsAux_space_cons]
    simp only [List.mem_cons, not_or]
    refine ⟨?_, ih⟩
    by_cases h : c = ' '
    · simp [h]
    · simp only [if_neg h]
      exact fun he => h he.symm

/-- C9 counterexample: for an account number containing a space, the
`Account` embedded in the `Forecast` carries the raw account number as
its utility account id, which differs from the whitespace-replaced id
that `get_account` produces. -/
theorem account_id_counterexample :
    (forecastAccount "c1" "12 34").utility_account_id = "12 34" ∧
    (getAccountModel "c1" "12 34").utility_account_id = "12_34" ∧
    ("12 34" : String) ≠ "12_34" :=
  ⟨rfl, by decide, by decide⟩

/-- C9 amended: the `Account` returned by `get_account` carries a
utility account id equal to the account number with every space replaced
by an underscore (hence containing no space, safe as a storage key), and
this id is the one used to build both per-account statistics series keys;
the `Account` embedded in each `Forecast`, however, carries the raw
account number with no replacement. -/
theorem account_id_normalization :
    (∀ cid an,
      (getAccountModel cid an).utility_account_id = pyReplace an " " "_" ∧
      ' ' ∉ ((getAccountModel cid an).utility_account_id).data ∧
      (forecastAccount cid an).utility_account_id = an) ∧
    (∀ domain cid an,
      costStatisticId domain (getAccountModel cid an).utility_account_id
        = domain ++ ":" ++ "elec" ++ "_" ++ pyReplace an " " "_" ++ "_energy_cost" ∧
      consumptionStatisticId domain (getAccountModel cid an).utility_account_id
        = domain ++ ":" ++ "elec" ++ "_" ++ pyReplace an " " "_"
            ++ "_energy_consumption") :=
  ⟨fun cid an => ⟨rfl, space_notMem_pyReplace an, rfl⟩,
   fun domain cid an => ⟨rfl, rfl⟩⟩

theorem account_id_normalization_witness :
    ' ' ∉ ((getAccountModel "c1" "a b").utility_account_id).data :=
  (account_id_normalization.1 "c1" "a b").2.1

/-! ## Provided cost defaults -/

theorem mapOpt_forall {α β : Type} (f : α → Option β) (P : β → Prop)
    (hf : ∀ a b, f a = some b → P b) :
    ∀ (l : List α) (out : List β), mapOpt f l = some out → ∀ x ∈ out, P x := by
  intro l
  induction l with
  | nil =>
    intro out h x hx
    simp [mapOpt] at h
    subst h
    simp at hx
  | cons a l ih =>
    intro out h x hx
    cases ha : f a with
    | none => simp [mapOpt, ha] at h
    | some b =>
      cases hl : mapOpt f l with
      | none => simp [mapOpt, ha, hl] at h
      | some bs =>
        simp [mapOpt, ha, hl] at h
        subst h
        rcases List.mem_cons.mp hx with rfl | hx2
        · exact hf a x ha
        · exact ih bs hl x hx2

theorem usageLoop_forall {α : Type} (parse : α → Option (List RawRead))
    (P : RawRead → Prop)
    (hp : ∀ a out, parse a = some out → ∀ r ∈ out, P r) :
    ∀ (n : ℕ) (cur : α) (steps : List (PageOutcome α)) (out : List RawRead),
      usageLoop parse n cur steps = some out → ∀ r ∈ out, P r := by
  intro n
  induction n with
  | zero =>
    intro cur steps out h r hr
    simp [usageLoop] at h
    subst h
    simp at hr
  | succ m ih =>
    intro cur steps out h r hr
    cases m with
    | zero =>
      simp [usageLoop] at h
      exact hp cur out h r hr
    | succ k =>
      cases steps with
      | nil =>
        simp [usageLoop] at h
        exact hp cur out h r hr
      | cons s rest =>
        cases s with
        | newPage p =>
          cases hc : parse cur with
          | none => simp [usageLoop, hc] at h
          | some recs =>
            cases hu : usageLoop parse (k + 1) p rest with
            | none => simp [usageLoop, hc, hu] at h
            | some more =>
              simp [usageLoop, hc, hu] at h
              subst h
              rcases List.mem_append.mp hr with h1 | h2
              · exact hp cur recs hc r h1
              · exact ih p rest more hu r h2
        | intercepted =>
          simp [usageLoop] at h
          exact hp cur out h r hr
        | timeout =>
          simp [usageLoop] at h
          exact hp cur out h r hr
        | missingControl =>
          cases hc : parse cur <;> simp [usageLoop, hc] at h

theorem hourPage_amount_none :
    ∀ (page : List HourEntry) (out : List RawRead),
      hourPageToReads page = some out → ∀ r ∈ out, r.amount = none := by
  refine mapOpt_forall hourEntryToRead (fun r => r.amount = none) ?_
  intro a b h
  rcases Option.map_eq_some'.mp h with ⟨t, _, rfl⟩
  rfl

/-- C10: every `CostRead` built by `get_cost_reads` carries a present
(`float`) provided cost: the cost is 0 exactly when the raw currency
field failed to parse or parsed to exactly 0 — so a parsed "$0" is
indistinguishable from a missing or unparseable amount — and at HOUR
resolution, where the source never provides a cost, every returned
record has provided cost 0. -/
theorem provided_cost_default_zero :
    (∀ s : Option String,
      pyOrQ (parseCurrency s) 0 = 0 ↔
        (rmpAtof ⟨stripChars ['$'] (s.getD "").data⟩ = none ∨
         rmpAtof ⟨stripChars ['$'] (s.getD "").data⟩ = some 0)) ∧
    pyOrQ (parseCurrency (some "$0")) 0 = 0 ∧
    parseCurrency (some "$0") = parseCurrency none ∧
    (∀ (first : List HourEntry) (steps : List (PageOutcome (List HourEntry)))
        (n : ℕ) (out : List RawRead),
      getUsageByHour first steps n = some out → ∀ r ∈ out, r.amount = none) ∧
    (∀ (first : List HourEntry) (steps : List (PageOutcome (List HourEntry)))
        (n : ℕ) (out : List CostRead),
      getCostReadsHour first steps n = some out → ∀ c ∈ out, c.provided_cost = 0) := by
  refine ⟨?_, by decide, by decide, ?_, ?_⟩
  · intro s
    cases h : rmpAtof ⟨stripChars ['$'] (s.getD "").data⟩ with
    | none => simp [parseCurrency, pyOrQ, h]
    | some v =>
      by_cases hv : v = 0
      · subst hv
        simp [parseCurrency, pyOrQ, h]
      · simp [parseCurrency, pyOrQ, h, hv]
  · exact fun first steps n out h =>
      usageLoop_forall hourPageToReads (fun r => r.amount = none)
        hourPage_amount_none n first steps out h
  · intro first steps n out h c hc
    rcases Option.map_eq_some'.mp h with ⟨reads, hu, rfl⟩
    have hmem := mem_trimTrailing _ c hc
    rcases List.mem_map.mp hmem with ⟨r, hr, rfl⟩
    have hamt : r.amount = none :=
      usageLoop_forall hourPageToReads (fun x => x.amount = none)
        hourPage_amount_none n first steps reads hu r hr
    simp [toCostRead, pyOrQ, hamt]

theorem provided_cost_default_zero_witness :
    (⟨1700611200, 1700614800, 2, 0⟩ : CostRead).provided_cost = 0 :=
  provided_cost_default_zero.2.2.2.2 [⟨"2023-11-22", "01:00", some 2⟩] [] 1
    [⟨1700611200, 1700614800, 2, 0⟩] (by decide)
    ⟨1700611200, 1700614800, 2, 0⟩ (by decide)

end Proofs

end RMP

